import Mathlib

/-!
Verification of the managed asynchronous task lifecycle and bounded-concurrency
scan pipeline of the Code 3D Visualizer extension.

The development shallowly embeds:
* `src/common/background-task-tracker.cts` (`BackgroundTaskTracker.track`,
  `BackgroundTaskTracker.setTimeout`, `getActiveTasks`);
* `src/extension/workspace-manager.cts` (`WorkspaceManager.scanWorkspace`:
  batching, cancellation checks, per-item failure isolation, Fermat-spiral
  offsets, progress reporting);
* the cancellation gate of `src/extension/parser.cts` (`FileParser.parse`);
* `src/common/errors.cts` (`VisualizerError`).

Asynchronous settlement is made explicit: a settled promise is an
`Except AppError T`; the JS `Map` backing the tracker registry is an
insertion-ordered association list with `Map.set` / `Map.delete` semantics;
`Promise.all` over a batch is modelled both canonically (input order) and with
an explicit completion schedule, so that independence from completion order is
a theorem rather than an assumption.
-/

namespace Spec

/-- `VisualizerError` of `errors.cts` (the `AppError` shape of the spec):
code, message, retryable flag. -/
structure AppError where
  code : String
  message : String
  retryable : Bool
deriving Repr, DecidableEq

/-- `TrackedTask` of `background-task-tracker.cts`: id, description, start time. -/
structure TrackedTask where
  id : String
  description : String
  startTime : Nat
deriving Repr, DecidableEq

/-- JS `Map.get`: first (unique) binding of the key, if any. -/
def mapGet (m : List (String × α)) (k : String) : Option α :=
  (m.find? (fun p => p.1 = k)).map (fun p => p.2)

/-- JS `Map.set`: replace in place when the key is bound, else append. -/
def mapSet (m : List (String × α)) (k : String) (v : α) : List (String × α) :=
  if m.any (fun p => p.1 = k) then
    m.map (fun p => if p.1 = k then (k, v) else p)
  else
    m ++ [(k, v)]

/-- JS `Map.delete`: drop every binding of the key. -/
def mapDelete (m : List (String × α)) (k : String) : List (String × α) :=
  m.filter (fun p => ¬ p.1 = k)

/-- The mutable state of a `BackgroundTaskTracker`: the `activeTasks` map and
the `nextId` counter. -/
structure TrackerState where
  activeTasks : List (String × TrackedTask)
  nextId : Nat
deriving Repr, DecidableEq

/-- `getActiveTasks()`: `Array.from(this.activeTasks.values())`. -/
def getActiveTasks (st : TrackerState) : List TrackedTask :=
  st.activeTasks.map (fun p => p.2)

/-- The id `track` allocates: `` `task-${this.nextId++}` ``. -/
def freshTaskId (st : TrackerState) : String :=
  "task-" ++ toString st.nextId

/-- First half of `track`: allocate the id, build the `TrackedTask` and
`set` it into `activeTasks` — everything `track` does before `await task`. -/
def trackRegister (st : TrackerState) (description : String) (now : Nat) :
    String × TrackerState :=
  let id := freshTaskId st
  (id, { activeTasks := mapSet st.activeTasks id ⟨id, description, now⟩
         nextId := st.nextId + 1 })

/-- Second half of `track`: the `try`/`catch`/`finally` around `await task`.
The `finally` deletes the registry entry on every path; the `catch` logs and
re-throws the original error, so the settled outcome is returned unchanged. -/
def trackSettle (st : TrackerState) (id : String) (outcome : Except AppError T) :
    Except AppError T × TrackerState :=
  (outcome, { st with activeTasks := mapDelete st.activeTasks id })

/-- `BackgroundTaskTracker.track`: register, await the (settled) task,
then the guaranteed cleanup. -/
def track (st : TrackerState) (description : String) (now : Nat)
    (outcome : Except AppError T) : Except AppError T × TrackerState :=
  let r := trackRegister st description now
  trackSettle r.2 r.1 outcome

/- Association-map lemmas. -/

theorem mapGet_none_iff (m : List (String × α)) (k : String) :
    mapGet m k = none ↔ ∀ p ∈ m, ¬ p.1 = k := by
  simp [mapGet, List.find?_eq_none]

theorem mapSet_of_get_none (m : List (String × α)) (k : String) (v : α)
    (h : mapGet m k = none) : mapSet m k v = m ++ [(k, v)] := by
  have h' := (mapGet_none_iff m k).1 h
  have : m.any (fun p => decide (p.1 = k)) = false := by
    simp only [List.any_eq_false, decide_eq_true_eq]
    exact h'
  simp [mapSet, this]

theorem mapDelete_of_get_none (m : List (String × α)) (k : String)
    (h : mapGet m k = none) : mapDelete m k = m := by
  have h' := (mapGet_none_iff m k).1 h
  simp only [mapDelete, List.filter_eq_self, decide_eq_true_eq]
  exact fun p hp => h' p hp

theorem mapDelete_append_singleton (m : List (String × α)) (k : String) (v : α)
    (h : mapGet m k = none) : mapDelete (m ++ [(k, v)]) k = m := by
  simp only [mapDelete, List.filter_append]
  rw [show (List.filter (fun p => decide (¬ p.1 = k)) [(k, v)]) = [] by simp]
  rw [show (List.filter (fun p => decide (¬ p.1 = k)) m) = m from ?_]
  · simp
  · rw [List.filter_eq_self]
    have h' := (mapGet_none_iff m k).1 h
    exact fun p hp => by simpa using h' p hp

theorem mapGet_append_singleton (m : List (String × α)) (k : String) (v : α)
    (h : mapGet m k = none) : mapGet (m ++ [(k, v)]) k = some v := by
  have hf : m.find? (fun p => decide (p.1 = k)) = none := by
    cases hmf : m.find? (fun p => decide (p.1 = k)) with
    | none => rfl
    | some p => simp only [mapGet, hmf, Option.map_some] at h; exact absurd h (by simp)
  simp [mapGet, List.find?_append, hf, List.find?_cons]

theorem mapGet_delete_self (m : List (String × α)) (k : String) :
    mapGet (mapDelete m k) k = none := by
  rw [mapGet_none_iff]
  intro p hp
  have := List.of_mem_filter hp
  simpa using this

/-- **C1.** `BackgroundTaskTracker.track` registers exactly one `TrackedTask`
before awaiting (the registry grows by one and contains the new entry), and
after the operation settles — resolve or reject alike — the entry is removed
and the settled outcome (its `AppError` code included) is returned to the
caller unchanged, so the active-task count returns to its pre-call value. -/
theorem track_registers_then_cleans (st : TrackerState) (d : String) (now : Nat)
    (outcome : Except AppError T)
    (hfresh : mapGet st.activeTasks (freshTaskId st) = none) :
    (getActiveTasks (trackRegister st d now).2).length
        = (getActiveTasks st).length + 1
    ∧ mapGet (trackRegister st d now).2.activeTasks (trackRegister st d now).1
        = some ⟨freshTaskId st, d, now⟩
    ∧ (track st d now outcome).1 = outcome
    ∧ mapGet (track st d now outcome).2.activeTasks (freshTaskId st) = none
    ∧ (getActiveTasks (track st d now outcome).2).length
        = (getActiveTasks st).length := by
  have hset := mapSet_of_get_none st.activeTasks (freshTaskId st)
    (⟨freshTaskId st, d, now⟩ : TrackedTask) hfresh
  refine ⟨?_, ?_, rfl, ?_, ?_⟩
  · simp [trackRegister, getActiveTasks, hset]
  · simp only [trackRegister, hset]
    exact mapGet_append_singleton _ _ _ hfresh
  · simp only [track, trackRegister, trackSettle, hset]
    exact mapGet_delete_self _ _
  · simp only [track, trackRegister, trackSettle, hset, getActiveTasks]
    rw [mapDelete_append_singleton _ _ _ hfresh]

/-- Witness for C1: tracking a rejecting task whose error carries code `"X"`
from the empty registry. -/
theorem track_registers_then_cleans_witness :
    (getActiveTasks (trackRegister ⟨[], 1⟩ "Workspace Scan" 0).2).length
        = (getActiveTasks (⟨[], 1⟩ : TrackerState)).length + 1
    ∧ mapGet (trackRegister ⟨[], 1⟩ "Workspace Scan" 0).2.activeTasks
          (trackRegister ⟨[], 1⟩ "Workspace Scan" 0).1
        = some ⟨freshTaskId ⟨[], 1⟩, "Workspace Scan", 0⟩
    ∧ (track ⟨[], 1⟩ "Workspace Scan" 0
          (Except.error ⟨"X", "boom", false⟩ : Except AppError Nat)).1
        = Except.error ⟨"X", "boom", false⟩
    ∧ mapGet (track ⟨[], 1⟩ "Workspace Scan" 0
          (Except.error ⟨"X", "boom", false⟩ : Except AppError Nat)).2.activeTasks
          (freshTaskId ⟨[], 1⟩) = none
    ∧ (getActiveTasks (track ⟨[], 1⟩ "Workspace Scan" 0
          (Except.error ⟨"X", "boom", false⟩ : Except AppError Nat)).2).length
        = (getActiveTasks (⟨[], 1⟩ : TrackerState)).length :=
  track_registers_then_cleans ⟨[], 1⟩ "Workspace Scan" 0
    (Except.error ⟨"X", "boom", false⟩) rfl

/-! ### Managed timers (`BackgroundTaskTracker.setTimeout`) -/

/-- State of one managed timer together with the tracker registry:
`tasks` is the tracker's `activeTasks` map, `timerId` the id this timer was
registered under, `armed` whether the underlying native `setTimeout` is still
pending (a `clearTimeout` or the firing itself disarms it), and
`handlerCalls` how many times the user handler has run. -/
structure TimerState where
  tasks : List (String × TrackedTask)
  timerId : String
  armed : Bool
  handlerCalls : Nat
deriving Repr, DecidableEq

/-- `BackgroundTaskTracker.setTimeout`: allocate `` `timer-${nextId++}` ``,
`set` the `TrackedTask` into the registry and arm a single-shot timer. The
handler has not run yet. -/
def scheduleTimer (st : TrackerState) (ms : Nat) (now : Nat) : TimerState :=
  let id := "timer-" ++ toString st.nextId
  { tasks := mapSet st.activeTasks id ⟨id, "Timeout (" ++ toString ms ++ "ms)", now⟩
    timerId := id
    armed := true
    handlerCalls := 0 }

/-- The two events that can reach a scheduled timer: the runtime firing the
armed callback, or a call to the returned handle's `cancel()`. -/
inductive TimerEvent where
  | fire
  | cancel
deriving Repr, DecidableEq

/-- One event step. `fire` is the native timer callback: it only runs while
the timer is armed, deletes the registry entry and then invokes the handler.
`cancel` is the handle's `cancel()`: `clearTimeout` (disarm), then delete the
registry entry if it is still present. -/
def timerStep : TimerEvent → TimerState → TimerState
  | .fire, s =>
      if s.armed then
        { s with
            tasks := mapDelete s.tasks s.timerId
            armed := false
            handlerCalls := s.handlerCalls + 1 }
      else s
  | .cancel, s =>
      let s1 := { s with armed := false }
      if (mapGet s1.tasks s1.timerId).isSome then
        { s1 with tasks := mapDelete s1.tasks s1.timerId }
      else s1

/-- Run a sequence of events. -/
def timerRun (s : TimerState) (evs : List TimerEvent) : TimerState :=
  evs.foldl (fun s e => timerStep e s) s

theorem timerStep_fire_unarmed (s : TimerState) (h : s.armed = false) :
    timerStep .fire s = s := by
  simp [timerStep, h]

theorem timerStep_cancel_gone (s : TimerState) (h : s.armed = false)
    (hg : mapGet s.tasks s.timerId = none) : timerStep .cancel s = s := by
  have hs1 : ({ s with armed := false } : TimerState) = s := by
    cases s; simp_all
  simp [timerStep, hs1, hg]

theorem timerRun_cancelled_invariant (s : TimerState) (evs : List TimerEvent)
    (h : s.armed = false) (hc : s.handlerCalls = 0)
    (hg : mapGet s.tasks s.timerId = none) :
    (timerRun s evs).handlerCalls = 0 := by
  induction evs generalizing s with
  | nil => exact hc
  | cons e rest ih =>
    cases e with
    | fire =>
      rw [timerRun, List.foldl_cons, timerStep_fire_unarmed s h]
      exact ih s h hc hg
    | cancel =>
      rw [timerRun, List.foldl_cons, timerStep_cancel_gone s h hg]
      exact ih s h hc hg

/-- **C7.** For every timer created by `scheduleTimer`: calling the handle's
`cancel()` while the delay has not yet elapsed (the timer is still armed)
removes the timer's `TrackedTask` from the registry synchronously at cancel
time, and thereafter the handler is never invoked — whatever events follow,
its call count stays `0`. Calling `cancel()` after the timer has fired is a
no-op on the state. -/
theorem scheduleTimer_cancel_before_fire (st : TrackerState) (ms now : Nat)
    (evs : List TimerEvent) :
    mapGet (timerStep .cancel (scheduleTimer st ms now)).tasks
        (scheduleTimer st ms now).timerId = none
    ∧ (timerRun (timerStep .cancel (scheduleTimer st ms now)) evs).handlerCalls = 0
    ∧ timerStep .cancel (timerStep .fire (scheduleTimer st ms now))
        = timerStep .fire (scheduleTimer st ms now) := by
  set s0 := scheduleTimer st ms now with hs0
  have harm : s0.armed = true := rfl
  have hcalls : s0.handlerCalls = 0 := rfl
  have hcancel_tasks :
      (timerStep .cancel s0).tasks = mapDelete s0.tasks s0.timerId ∧
      (timerStep .cancel s0).armed = false ∧
      (timerStep .cancel s0).handlerCalls = 0 ∧
      (timerStep .cancel s0).timerId = s0.timerId := by
    cases hg : mapGet s0.tasks s0.timerId with
    | none => simp [timerStep, hg, mapDelete_of_get_none _ _ hg, hcalls]
    | some v => simp [timerStep, hg, hcalls]
  obtain ⟨ht, ha, hc, hid⟩ := hcancel_tasks
  refine ⟨?_, ?_, ?_⟩
  · rw [ht]; exact mapGet_delete_self _ _
  · exact timerRun_cancelled_invariant _ evs ha hc (by rw [ht, hid]; exact mapGet_delete_self _ _)
  · have hfire : (timerStep .fire s0)
        = { s0 with
              tasks := mapDelete s0.tasks s0.timerId
              armed := false
              handlerCalls := s0.handlerCalls + 1 } := by
      simp [timerStep, harm]
    rw [hfire]
    exact timerStep_cancel_gone _ rfl (mapGet_delete_self _ _)

/-! ### The bounded scan pipeline (`WorkspaceManager.scanWorkspace`) -/

/-- Integer voxel coordinates of a block. -/
structure Position where
  x : Int
  y : Int
  z : Int
deriving Repr, DecidableEq

/-- `Block` of `contract.cts`, restricted to the fields the pipeline reads or
writes (`metadata` is inlined). -/
structure Block where
  id : String
  type : String
  position : Position
  name : String
  originalType : String
  color : Nat
deriving Repr, DecidableEq

/-- One `onProgressMessage(msg, increment, current, total)` invocation of the
`ProgressSink`. JS numbers carrying `increment` are modelled exactly as
rationals. -/
structure ProgressReport where
  message : String
  increment : ℚ
  current : Nat
  total : Nat
deriving Repr, DecidableEq

/-- `const batchSize = 5` of `scanWorkspace`. -/
def batchSize : Nat := 5

/-- The translation `scanWorkspace` applies to one parsed block:
`{ ...obj, position: { x: x + islandX, y, z: z + islandZ } }`. -/
def translateBlock (dx dz : Int) (b : Block) : Block :=
  { b with
      position :=
        { x := b.position.x + dx, y := b.position.y, z := b.position.z + dz } }

/-- The per-item closure of one batch
(`batch.map(async (fileUri, batchIndex) => { try ... catch ... })`):
`parse file` is the settled outcome of `this.parser.parse(document, token)`;
on success every produced block is translated by the offset of the item's
global index `g = i + batchIndex`; on throw/reject the failure is caught
locally and the item contributes the empty list. -/
def processFile (parse : α → Except AppError (List Block)) (offset : Nat → Int × Int)
    (g : Nat) (file : α) : List Block :=
  match parse file with
  | .ok objects => objects.map (translateBlock (offset g).1 (offset g).2)
  | .error _ => []

/-- `list.map((x, idx) => f (start + idx) x)`: map with a running global index. -/
def mapWithIndexFrom (f : Nat → α → β) : Nat → List α → List β
  | _, [] => []
  | g, a :: as => f g a :: mapWithIndexFrom f (g + 1) as

/-- The `for (let i = 0; i < total; i += batchSize)` loop of `scanWorkspace`.
`token b` is `token.isCancellationRequested` at the `b`-th batch-boundary
check. Returns the aggregated `allObjects` and the per-batch
`onProgressMessage` reports, in order. -/
def scanGo (parse : α → Except AppError (List Block)) (offset : Nat → Int × Int)
    (token : Nat → Bool) (files : List α) (total : Nat) (i b : Nat) :
    List Block × List ProgressReport :=
  if _h : i < total then
    if token b then ([], [])
    else
      let batch := (files.drop i).take batchSize
      let batchResults := mapWithIndexFrom (processFile parse offset) i batch
      let current := min (i + batchSize) total
      let increment : ℚ := (batch.length : ℚ) / (total : ℚ) * 100
      let rest := scanGo parse offset token files total (i + batchSize) (b + 1)
      (batchResults.flatten ++ rest.1,
        ⟨s!"Parsing {current}/{total} files...", increment, current, total⟩ :: rest.2)
  else ([], [])
termination_by total - i
decreasing_by simp only [batchSize]; omega

/-- `scanWorkspace` after the eager file enumeration: `total = files.length`,
the initial `onProgressMessage(`Found ...`, 0, 0, total)` call, then the batch
loop. The first component is the returned `allObjects`. -/
def scanWorkspace (parse : α → Except AppError (List Block)) (offset : Nat → Int × Int)
    (token : Nat → Bool) (files : List α) : List Block × List ProgressReport :=
  let total := files.length
  let r := scanGo parse offset token files total 0 0
  (r.1, ⟨s!"Found {total} files.", 0, 0, total⟩ :: r.2)

/-- Number of batches of a full (uncancelled) scan: `⌈total / batchSize⌉`. -/
def numBatches (total : Nat) : Nat := (total + batchSize - 1) / batchSize

theorem scanGo_of_ge (parse : α → Except AppError (List Block)) (offset token files)
    (total i b : Nat) (h : ¬ i < total) :
    scanGo parse offset token files total i b = ([], []) := by
  rw [scanGo]
  simp [h]

theorem scanGo_of_cancel (parse : α → Except AppError (List Block)) (offset token files)
    (total i b : Nat) (h : token b = true) :
    scanGo parse offset token files total i b = ([], []) := by
  rw [scanGo]
  split
  · simp [h]
  · rfl

theorem scanGo_of_run (parse : α → Except AppError (List Block)) (offset token files)
    (total i b : Nat) (hi : i < total) (h : token b = false) :
    scanGo parse offset token files total i b
      = ((mapWithIndexFrom (processFile parse offset) i ((files.drop i).take batchSize)).flatten
            ++ (scanGo parse offset token files total (i + batchSize) (b + 1)).1,
          ⟨s!"Parsing {min (i + batchSize) total}/{total} files...",
              ((((files.drop i).take batchSize).length : Nat) : ℚ) / (total : ℚ) * 100,
              min (i + batchSize) total, total⟩
            :: (scanGo parse offset token files total (i + batchSize) (b + 1)).2) := by
  conv_lhs => rw [scanGo]
  simp [hi, h]

theorem mapWithIndexFrom_append (f : Nat → α → β) (g : Nat) (xs ys : List α) :
    mapWithIndexFrom f g (xs ++ ys)
      = mapWithIndexFrom f g xs ++ mapWithIndexFrom f (g + xs.length) ys := by
  induction xs generalizing g with
  | nil => simp [mapWithIndexFrom]
  | cons a as ih =>
    simp only [List.cons_append, mapWithIndexFrom, List.length_cons, List.append_eq]
    rw [ih, show g + (as.length + 1) = g + 1 + as.length by omega]

theorem mapWithIndexFrom_length (f : Nat → α → β) (g : Nat) (xs : List α) :
    (mapWithIndexFrom f g xs).length = xs.length := by
  induction xs generalizing g with
  | nil => rfl
  | cons a as ih => simp [mapWithIndexFrom, ih]

/-- The per-batch progress reports of an uncancelled scan, described directly:
the report issued at loop index `i` carries the actual batch length
`min batchSize (total - i)` in its percent increment and
`current = min (i + batchSize) total`. -/
def expectedReportsFrom (total i : Nat) : List ProgressReport :=
  if _h : i < total then
    ⟨s!"Parsing {min (i + batchSize) total}/{total} files...",
        ((min batchSize (total - i) : Nat) : ℚ) / (total : ℚ) * 100,
        min (i + batchSize) total, total⟩
      :: expectedReportsFrom total (i + batchSize)
  else []
termination_by total - i
decreasing_by simp only [batchSize]; omega

theorem expectedReportsFrom_of_lt (total i : Nat) (h : i < total) :
    expectedReportsFrom total i
      = ⟨s!"Parsing {min (i + batchSize) total}/{total} files...",
            ((min batchSize (total - i) : Nat) : ℚ) / (total : ℚ) * 100,
            min (i + batchSize) total, total⟩
          :: expectedReportsFrom total (i + batchSize) := by
  rw [expectedReportsFrom]
  simp [h]

theorem expectedReportsFrom_of_ge (total i : Nat) (h : ¬ i < total) :
    expectedReportsFrom total i = [] := by
  rw [expectedReportsFrom]
  simp [h]

theorem expectedReportsFrom_length (total : Nat) :
    ∀ n i, total - i ≤ n →
      (expectedReportsFrom total i).length = (total - i + batchSize - 1) / batchSize := by
  intro n
  induction n with
  | zero =>
    intro i hn
    have hge : ¬ i < total := by omega
    rw [expectedReportsFrom_of_ge total i hge]
    simp only [List.length_nil, batchSize]
    omega
  | succ n ih =>
    intro i hn
    have hb : batchSize = 5 := rfl
    by_cases hi : i < total
    · rw [expectedReportsFrom_of_lt total i hi]
      simp only [List.length_cons, ih (i + batchSize) (by omega)]
      simp only [batchSize]
      omega
    · rw [expectedReportsFrom_of_ge total i hi]
      simp only [List.length_nil, batchSize]
      omega

/-- Splitting the remaining suffix of the file list at the batch boundary. -/
theorem flatten_drop_split (pf : Nat → α → List γ) (files : List α) (i : Nat) :
    (mapWithIndexFrom pf i (files.drop i)).flatten
      = (mapWithIndexFrom pf i ((files.drop i).take batchSize)).flatten
          ++ (mapWithIndexFrom pf (i + batchSize) (files.drop (i + batchSize))).flatten := by
  conv_lhs => rw [← List.take_append_drop batchSize (files.drop i)]
  rw [mapWithIndexFrom_append, List.flatten_append, List.drop_drop]
  by_cases hc : batchSize ≤ files.length - i
  · have hlen : ((files.drop i).take batchSize).length = batchSize := by
      rw [List.length_take, List.length_drop]
      omega
    rw [hlen]
  · have hnil : files.drop (i + batchSize) = [] := by
      apply List.drop_eq_nil_of_le
      have hb : batchSize = 5 := rfl
      omega
    rw [hnil]
    simp [mapWithIndexFrom]

/-- Splitting the first batch off a `batchSize * (k + 1)`-item prefix. -/
theorem flatten_take_split (pf : Nat → α → List γ) (files : List α) (i k : Nat) :
    (mapWithIndexFrom pf i ((files.drop i).take (batchSize * (k + 1)))).flatten
      = (mapWithIndexFrom pf i ((files.drop i).take batchSize)).flatten
          ++ (mapWithIndexFrom pf (i + batchSize)
                ((files.drop (i + batchSize)).take (batchSize * k))).flatten := by
  rw [show batchSize * (k + 1) = batchSize + batchSize * k by ring]
  rw [List.take_add, mapWithIndexFrom_append, List.flatten_append, List.drop_drop]
  by_cases hc : batchSize ≤ files.length - i
  · have hlen : ((files.drop i).take batchSize).length = batchSize := by
      rw [List.length_take, List.length_drop]
      omega
    rw [hlen]
  · have hnil : files.drop (i + batchSize) = [] := by
      apply List.drop_eq_nil_of_le
      have hb : batchSize = 5 := rfl
      omega
    rw [hnil]
    simp [mapWithIndexFrom]

/-- With a token that never requests cancellation, the loop starting at `i`
processes every remaining item in order and issues exactly the expected
report per batch. -/
theorem scanGo_no_cancel (parse : α → Except AppError (List Block)) (offset : Nat → Int × Int)
    (token : Nat → Bool) (files : List α) (h : ∀ j, token j = false) :
    ∀ n i b, files.length - i ≤ n →
      scanGo parse offset token files files.length i b
        = ((mapWithIndexFrom (processFile parse offset) i (files.drop i)).flatten,
            expectedReportsFrom files.length i) := by
  intro n
  induction n with
  | zero =>
    intro i b hn
    have hge : ¬ i < files.length := by omega
    rw [scanGo_of_ge _ _ _ _ _ _ _ hge, expectedReportsFrom_of_ge _ _ hge,
      List.drop_eq_nil_of_le (by omega)]
    rfl
  | succ n ih =>
    intro i b hn
    have hb : batchSize = 5 := rfl
    by_cases hi : i < files.length
    · rw [scanGo_of_run _ _ _ _ _ _ _ hi (h b), ih (i + batchSize) (b + 1) (by omega),
        expectedReportsFrom_of_lt _ _ hi]
      refine Prod.ext ?_ ?_
      · exact (flatten_drop_split _ files i).symm
      · simp only []
        congr 2
        rw [List.length_take, List.length_drop]
    · rw [scanGo_of_ge _ _ _ _ _ _ _ hi, expectedReportsFrom_of_ge _ _ hi,
        List.drop_eq_nil_of_le (by omega)]
      rfl

/-- `scanWorkspace` under a token that never requests cancellation: the
returned blocks are the per-item contributions flattened in enumeration
order, and the sink sees the initial report followed by one expected report
per batch. -/
theorem scanWorkspace_no_cancel (parse : α → Except AppError (List Block))
    (offset : Nat → Int × Int) (token : Nat → Bool) (files : List α)
    (h : ∀ j, token j = false) :
    scanWorkspace parse offset token files
      = ((mapWithIndexFrom (processFile parse offset) 0 files).flatten,
          ⟨s!"Found {files.length} files.", 0, 0, files.length⟩
            :: expectedReportsFrom files.length 0) := by
  have hgo := scanGo_no_cancel parse offset token files h files.length 0 0 (by omega)
  simp only [scanWorkspace, hgo, List.drop_zero]

/-- If cancellation is first observed at the `k`-th batch boundary after `b`,
the loop completes exactly the first `k` remaining batches (an
already-started batch always runs to completion) and then stops: the blocks
are those of the first `batchSize * k` remaining items, and exactly
`min k ⌈(total - i) / batchSize⌉` further reports are issued. -/
theorem scanGo_cancel_first (parse : α → Except AppError (List Block)) (offset : Nat → Int × Int)
    (token : Nat → Bool) (files : List α) :
    ∀ k i b, (∀ j, j < k → token (b + j) = false) → token (b + k) = true →
      (scanGo parse offset token files files.length i b).1
        = (mapWithIndexFrom (processFile parse offset) i
            ((files.drop i).take (batchSize * k))).flatten
      ∧ (scanGo parse offset token files files.length i b).2.length
        = min k ((files.length - i + batchSize - 1) / batchSize) := by
  intro k
  induction k with
  | zero =>
    intro i b _ hk
    have hk' : token b = true := by simpa using hk
    rw [scanGo_of_cancel _ _ _ _ _ _ _ hk']
    simp [mapWithIndexFrom]
  | succ k ih =>
    intro i b hlt hk
    have hb0 : token b = false := by simpa using hlt 0 (Nat.succ_pos k)
    by_cases hi : i < files.length
    · rw [scanGo_of_run _ _ _ _ _ _ _ hi hb0]
      obtain ⟨ih1, ih2⟩ := ih (i + batchSize) (b + 1)
        (fun j hj => by
          have hj' := hlt (j + 1) (by omega)
          rwa [show b + (j + 1) = b + 1 + j by omega] at hj')
        (by
          have hk' := hk
          rwa [show b + (k + 1) = b + 1 + k by omega] at hk')
      constructor
      · simp only [ih1]
        rw [flatten_take_split]
      · simp only [List.length_cons, ih2]
        simp only [batchSize]
        omega
    · rw [scanGo_of_ge _ _ _ _ _ _ _ hi]
      have hnil : files.drop i = [] := List.drop_eq_nil_of_le (by omega)
      constructor
      · simp [hnil, mapWithIndexFrom]
      · simp only [List.length_nil, batchSize]
        omega

/-- Every report the loop issues satisfies `current ≤ total`, for every token. -/
theorem scanGo_current_le (parse : α → Except AppError (List Block)) (offset : Nat → Int × Int)
    (token : Nat → Bool) (files : List α) (total : Nat) :
    ∀ n i b, total - i ≤ n →
      ∀ r ∈ (scanGo parse offset token files total i b).2, r.current ≤ r.total := by
  intro n
  induction n with
  | zero =>
    intro i b hn r hr
    have hge : ¬ i < total := by omega
    rw [scanGo_of_ge _ _ _ _ _ _ _ hge] at hr
    cases hr
  | succ n ih =>
    intro i b hn r hr
    by_cases hi : i < total
    · cases htok : token b with
      | true =>
        rw [scanGo_of_cancel _ _ _ _ _ _ _ htok] at hr
        cases hr
      | false =>
        rw [scanGo_of_run _ _ _ _ _ _ _ hi htok] at hr
        rcases List.mem_cons.1 hr with hr1 | hr2
        · subst hr1
          exact Nat.min_le_right _ _
        · exact ih (i + batchSize) (b + 1)
            (by simp only [batchSize] at hn ⊢; omega) r hr2
    · rw [scanGo_of_ge _ _ _ _ _ _ _ hi] at hr
      cases hr

/-- The sink is called at most once per batch: the loop issues at most
`⌈(total - i) / batchSize⌉` reports, for every token. -/
theorem scanGo_reports_le (parse : α → Except AppError (List Block)) (offset : Nat → Int × Int)
    (token : Nat → Bool) (files : List α) (total : Nat) :
    ∀ n i b, total - i ≤ n →
      (scanGo parse offset token files total i b).2.length
        ≤ (total - i + batchSize - 1) / batchSize := by
  intro n
  induction n with
  | zero =>
    intro i b hn
    have hge : ¬ i < total := by omega
    rw [scanGo_of_ge _ _ _ _ _ _ _ hge]
    simp
  | succ n ih =>
    intro i b hn
    by_cases hi : i < total
    · cases htok : token b with
      | true =>
        rw [scanGo_of_cancel _ _ _ _ _ _ _ htok]
        simp
      | false =>
        rw [scanGo_of_run _ _ _ _ _ _ _ hi htok]
        simp only [List.length_cons]
        have hrec := ih (i + batchSize) (b + 1)
          (by simp only [batchSize] at hn ⊢; omega)
        simp only [batchSize] at hrec ⊢
        omega
    · rw [scanGo_of_ge _ _ _ _ _ _ _ hi]
      simp

/-! ### Concrete scenario instances -/

/-- Twelve work items, identified by their position. -/
def files12 : List Nat := List.range 12

/-- A parser outcome that succeeds with no blocks for every item. -/
def parseNone : Nat → Except AppError (List Block) := fun _ => Except.ok []

/-- The zero spatial offset. -/
def offsetZero : Nat → Int × Int := fun _ => (0, 0)

/-- A token that never requests cancellation. -/
def tokenNever : Nat → Bool := fun _ => false

/-- A token already cancelled before the pipeline starts. -/
def tokenAlways : Nat → Bool := fun _ => true

/-- A sample parsed block for item `n`. -/
def blockAt (n : Nat) : Block :=
  ⟨s!"block_{n}", "function_block", ⟨0, 0, 0⟩, s!"fn{n}", "function", 0x00CED1⟩

/-- A parser that rejects exactly for item `2` and yields one block for every
other item. -/
def parsePoisoned : Nat → Except AppError (List Block) := fun n =>
  if n = 2 then Except.error ⟨"PARSING_FAILED", "Failed to parse", false⟩
  else Except.ok [blockAt n]

theorem mapWithIndexFrom_getElem? (f : Nat → α → β) (g : Nat) (xs : List α) (p : Nat) :
    (mapWithIndexFrom f g xs)[p]? = (xs[p]?).map (f (g + p)) := by
  induction xs generalizing g p with
  | nil => simp [mapWithIndexFrom]
  | cons a as ih =>
    cases p with
    | zero => simp [mapWithIndexFrom]
    | succ p =>
      simp only [mapWithIndexFrom, List.getElem?_cons_succ, ih (g + 1) p]
      rw [show g + 1 + p = g + (p + 1) by omega]

/-- **C2.** If the parser call for an item of a batch rejects, the failure is
caught locally and replaced by an empty contribution for that item
(`processFile … = []`), while the scan still aggregates, in enumeration
order, the contribution of every item of every batch — so the other items of
the poisoned batch are intact — and still issues one report per batch of the
whole scan: one item's failure aborts neither its batch nor the scan. -/
theorem poisoned_item_is_isolated (parse : α → Except AppError (List Block))
    (offset : Nat → Int × Int) (token : Nat → Bool) (files : List α)
    (h : ∀ j, token j = false) (p : Nat) (fp : α) (e : AppError)
    (hp : files[p]? = some fp) (hfail : parse fp = Except.error e) :
    processFile parse offset p fp = []
    ∧ (mapWithIndexFrom (processFile parse offset) 0 files)[p]? = some []
    ∧ (scanWorkspace parse offset token files).1
        = (mapWithIndexFrom (processFile parse offset) 0 files).flatten
    ∧ (scanWorkspace parse offset token files).2.length
        = 1 + numBatches files.length := by
  refine ⟨?_, ?_, ?_, ?_⟩
  · simp [processFile, hfail]
  · rw [mapWithIndexFrom_getElem? (processFile parse offset) 0 files p, hp]
    simp [processFile, hfail]
  · rw [scanWorkspace_no_cancel parse offset token files h]
  · rw [scanWorkspace_no_cancel parse offset token files h]
    simp only [List.length_cons]
    rw [expectedReportsFrom_length files.length files.length 0 (by omega)]
    simp only [numBatches, batchSize]
    omega

/-- Witness for C2: 12 items, the parser rejecting exactly for the third item
of the first batch of 5. -/
theorem poisoned_item_is_isolated_witness :
    processFile parsePoisoned offsetZero 2 2 = []
    ∧ (mapWithIndexFrom (processFile parsePoisoned offsetZero) 0 files12)[2]? = some []
    ∧ (scanWorkspace parsePoisoned offsetZero tokenNever files12).1
        = (mapWithIndexFrom (processFile parsePoisoned offsetZero) 0 files12).flatten
    ∧ (scanWorkspace parsePoisoned offsetZero tokenNever files12).2.length
        = 1 + numBatches files12.length :=
  poisoned_item_is_isolated parsePoisoned offsetZero tokenNever files12
    (fun _ => rfl) 2 2 ⟨"PARSING_FAILED", "Failed to parse", false⟩ rfl rfl

/-- **C5.** With a token already cancelled before the pipeline starts, the
scan returns no blocks and issues no batch report (no batch begins); in
general, when cancellation is first observed at the `k`-th batch boundary,
the result consists of exactly the first `k` complete batches (an
already-started batch always runs to completion) and no further batch
starts — only the `k` reports of the completed batches are issued. -/
theorem cancellation_stops_at_batch_boundary (parse : α → Except AppError (List Block))
    (offset : Nat → Int × Int) (token : Nat → Bool) (files : List α) :
    (token 0 = true →
      scanWorkspace parse offset token files
        = ([], [⟨s!"Found {files.length} files.", 0, 0, files.length⟩]))
    ∧ (∀ k, (∀ j, j < k → token j = false) → token k = true →
        (scanWorkspace parse offset token files).1
          = (mapWithIndexFrom (processFile parse offset) 0
              (files.take (batchSize * k))).flatten
        ∧ (scanWorkspace parse offset token files).2.length
          = 1 + min k (numBatches files.length)) := by
  constructor
  · intro h0
    simp only [scanWorkspace]
    rw [scanGo_of_cancel _ _ _ _ _ _ _ h0]
  · intro k hfirst hk
    obtain ⟨h1, h2⟩ := scanGo_cancel_first parse offset token files k 0 0
      (fun j hj => by simpa using hfirst j hj)
      (by simpa using hk)
    refine ⟨?_, ?_⟩
    · simp only [scanWorkspace]
      rw [h1, List.drop_zero]
    · simp only [scanWorkspace, List.length_cons]
      rw [h2]
      simp only [numBatches, batchSize]
      omega

/-- Witness for C5: a pre-cancelled token on the 12-item scan. -/
theorem cancellation_stops_at_batch_boundary_witness :
    (scanWorkspace parsePoisoned offsetZero tokenAlways files12
        = ([], [⟨s!"Found {files12.length} files.", 0, 0, files12.length⟩]))
    ∧ ((scanWorkspace parsePoisoned offsetZero tokenAlways files12).1
          = (mapWithIndexFrom (processFile parsePoisoned offsetZero) 0
              (files12.take (batchSize * 0))).flatten
        ∧ (scanWorkspace parsePoisoned offsetZero tokenAlways files12).2.length
          = 1 + min 0 (numBatches files12.length)) :=
  ⟨(cancellation_stops_at_batch_boundary parsePoisoned offsetZero tokenAlways files12).1 rfl,
   (cancellation_stops_at_batch_boundary parsePoisoned offsetZero tokenAlways files12).2 0
     (fun j hj => absurd hj (Nat.not_lt_zero j)) rfl⟩

/-- Full evaluation of the reports of the 12-item scan: the initial call and
one call per batch of sizes [5, 5, 2]. -/
theorem scan12_reports_eval :
    (scanWorkspace parseNone offsetZero tokenNever files12).2
      = [⟨"Found 12 files.", 0, 0, 12⟩,
         ⟨"Parsing 5/12 files...", 125/3, 5, 12⟩,
         ⟨"Parsing 10/12 files...", 125/3, 10, 12⟩,
         ⟨"Parsing 12/12 files...", 50/3, 12, 12⟩] := by
  have hlen : files12.length = 12 := rfl
  have h2 := congrArg Prod.snd
    (scanWorkspace_no_cancel parseNone offsetZero tokenNever files12 (fun _ => rfl))
  rw [hlen] at h2
  rw [h2]
  rw [expectedReportsFrom_of_lt 12 0 (by norm_num)]
  rw [show (0 + batchSize) = 5 from rfl]
  rw [expectedReportsFrom_of_lt 12 5 (by norm_num)]
  rw [show (5 + batchSize) = 10 from rfl]
  rw [expectedReportsFrom_of_lt 12 10 (by norm_num)]
  rw [show (10 + batchSize) = 15 from rfl]
  rw [expectedReportsFrom_of_ge 12 15 (by norm_num)]
  norm_num [batchSize]
  exact ⟨rfl, rfl, rfl, rfl⟩

/-- **C3 (counterexample).** In the 12-item scan the final batch has 2 items
and its report carries `percentIncrement = 2/12·100 = 50/3`, not the claimed
constant-`batchSize` value `5/12·100 = 125/3`: the claimed per-batch formula
fails for the final, shorter batch. -/
theorem final_batch_increment_refutes_constant_formula :
    ((scanWorkspace parseNone offsetZero tokenNever files12).2.map
        (fun r => r.increment)) = [0, 125/3, 125/3, 50/3]
    ∧ ¬ (∀ r ∈ (scanWorkspace parseNone offsetZero tokenNever files12).2.drop 1,
          r.increment = (batchSize : ℚ) / (files12.length : ℚ) * 100) := by
  constructor
  · rw [scan12_reports_eval]
    simp
  · intro hall
    have hmem : (⟨"Parsing 12/12 files...", 50/3, 12, 12⟩ : ProgressReport)
        ∈ (scanWorkspace parseNone offsetZero tokenNever files12).2.drop 1 := by
      rw [scan12_reports_eval]
      simp
    have hv := hall _ hmem
    rw [show files12.length = 12 from rfl] at hv
    norm_num [batchSize] at hv

/-- **C3 (amended).** For every batch of every uncancelled scan, the report
passed to the sink carries `percentIncrement = batch.length/total·100` where
`batch.length = min batchSize (total - i)` is the *actual* length of the
batch issued at loop index `i` — `batchSize = 5` for full batches, shorter
for the final one — together with `current = min (i + batchSize) total` and
the given `total` (this is exactly `expectedReportsFrom`). -/
theorem report_formula_uses_actual_batch_length (parse : α → Except AppError (List Block))
    (offset : Nat → Int × Int) (token : Nat → Bool) (files : List α)
    (h : ∀ j, token j = false) :
    (scanWorkspace parse offset token files).2
      = ⟨s!"Found {files.length} files.", 0, 0, files.length⟩
          :: expectedReportsFrom files.length 0 :=
  congrArg Prod.snd (scanWorkspace_no_cancel parse offset token files h)

/-- Witness for the amended C3: the 12-item scan. -/
theorem report_formula_uses_actual_batch_length_witness :
    (scanWorkspace parseNone offsetZero tokenNever files12).2
      = ⟨s!"Found {files12.length} files.", 0, 0, files12.length⟩
          :: expectedReportsFrom files12.length 0 :=
  report_formula_uses_actual_batch_length parseNone offsetZero tokenNever files12
    (fun _ => rfl)

/-- **C4 (counterexample).** For 12 work items the sink is invoked 4 times,
not 3: the initial "Found 12 files." call with `current = 0` precedes the
three per-batch calls, so the `current` sequence is `[0, 5, 10, 12]`, not
`[5, 10, 12]`. -/
theorem sink_invoked_four_times_for_12_items :
    (scanWorkspace parseNone offsetZero tokenNever files12).2.length = 4
    ∧ ((scanWorkspace parseNone offsetZero tokenNever files12).2.map
        (fun r => r.current)) = [0, 5, 10, 12]
    ∧ ((scanWorkspace parseNone offsetZero tokenNever files12).2.map
        (fun r => r.current)) ≠ [5, 10, 12] := by
  rw [scan12_reports_eval]
  exact ⟨rfl, rfl, by simp⟩

/-- **C4 (amended).** The sink is called at most once per batch plus exactly
one initial call (never more than `1 + ⌈total/batchSize⌉` invocations, under
every token) and never with `current > total`; a scan of 12 work items with
batchSize 5 invokes it exactly 4 times — the initial call plus one call per
batch of sizes [5, 5, 2] — with `current` sequence `[0, 5, 10, 12]` and
`total = 12` on every call. -/
theorem sink_call_contract (parse : α → Except AppError (List Block))
    (offset : Nat → Int × Int) (token : Nat → Bool) (files : List α) :
    (∀ r ∈ (scanWorkspace parse offset token files).2, r.current ≤ r.total)
    ∧ (scanWorkspace parse offset token files).2.length
        ≤ 1 + numBatches files.length
    ∧ (scanWorkspace parseNone offsetZero tokenNever files12).2.length = 4
    ∧ ((scanWorkspace parseNone offsetZero tokenNever files12).2.map
        (fun r => r.current)) = [0, 5, 10, 12]
    ∧ ((scanWorkspace parseNone offsetZero tokenNever files12).2.map
        (fun r => r.total)) = [12, 12, 12, 12] := by
  refine ⟨?_, ?_, by simp [scan12_reports_eval], by simp [scan12_reports_eval],
    by simp [scan12_reports_eval]⟩
  · intro r hr
    simp only [scanWorkspace] at hr
    rcases List.mem_cons.1 hr with h1 | h2
    · subst h1
      exact Nat.zero_le _
    · exact scanGo_current_le parse offset token files files.length
        files.length 0 0 (by omega) r h2
  · simp only [scanWorkspace, List.length_cons]
    have hle := scanGo_reports_le parse offset token files files.length
      files.length 0 0 (by omega)
    simp only [numBatches, batchSize] at hle ⊢
    omega

/-- Witness for the amended C4, instantiated on the 12-item scan; the
membership hypothesis of the first part is discharged at the initial
report. -/
theorem sink_call_contract_witness :
    (⟨"Found 12 files.", 0, 0, 12⟩ : ProgressReport).current
        ≤ (⟨"Found 12 files.", 0, 0, 12⟩ : ProgressReport).total
    ∧ (scanWorkspace parseNone offsetZero tokenNever files12).2.length
        ≤ 1 + numBatches files12.length :=
  ⟨(sink_call_contract parseNone offsetZero tokenNever files12).1
      ⟨"Found 12 files.", 0, 0, 12⟩ (by simp [scan12_reports_eval]),
   (sink_call_contract parseNone offsetZero tokenNever files12).2.1⟩


/-! ### Deterministic Fermat-spiral layout -/

/-- The island offset `scanWorkspace` computes for the item with 0-based
global index `g` (`FileParser.createObject` uses the same formula for block
indices): `radius = scale·√g`, `angle = g·2.4`,
`(Math.round(radius·cos angle), Math.round(radius·sin angle))`, with
`Math.round` being the half-up `round`. `scale` is `15` in
`workspace-manager.cts` and `1.5` in `parser.cts`. -/
noncomputable def islandOffset (scale : ℝ) (g : Nat) : Int × Int :=
  (round (scale * Real.sqrt g * Real.cos (g * 2.4)),
   round (scale * Real.sqrt g * Real.sin (g * 2.4)))

/-- **C6.** The spatial offset applied to the blocks of the item with global
index `g` equals `(round(scale·√g·cos(g·2.4)), round(scale·√g·sin(g·2.4)))`,
and it is a pure function of `g` alone: `processFile` feeds
`islandOffset scale g` to the translation of every block of item `g`
regardless of the item itself or anything else in the run — so two runs over
the same ordered item list apply identical offsets to every item. -/
theorem offsets_are_pure_function_of_index (scale : ℝ) (g : Nat)
    (parse : α → Except AppError (List Block)) (file : α) :
    islandOffset scale g
      = (round (scale * Real.sqrt g * Real.cos (g * 2.4)),
         round (scale * Real.sqrt g * Real.sin (g * 2.4)))
    ∧ processFile parse (islandOffset scale) g file
        = (match parse file with
           | .ok objects => objects.map (translateBlock
               (round (scale * Real.sqrt g * Real.cos (g * 2.4)))
               (round (scale * Real.sqrt g * Real.sin (g * 2.4))))
           | .error _ => []) := by
  refine ⟨rfl, ?_⟩
  cases hp : parse file <;> simp [processFile, hp, islandOffset]

/-! ### Cancellation as surfaced to callers -/

/-- The control skeleton of `FileParser.parse`: iterate over the document's
lines (a JS `split` always yields at least one line); at each line the token
is checked first, and cancellation throws
`VisualizerError("CANCELLATION_REQUESTED", "Parsing cancelled", true)`;
otherwise the line goes through the regex classifiers, abstracted here as
`matchLine`, which folds any matched blocks into the accumulator. `token i`
is the token state observed at the `i`-th line. -/
def parseLines (matchLine : String → List Block → List Block) (token : Nat → Bool) :
    List String → Nat → List Block → Except AppError (List Block)
  | [], _, acc => Except.ok acc
  | l :: ls, i, acc =>
    if token i then Except.error ⟨"CANCELLATION_REQUESTED", "Parsing cancelled", true⟩
    else parseLines matchLine token ls (i + 1) (matchLine l acc)

/-- The settled outcome `scanWorkspace` delivers to its caller through
`taskTracker.track`: the tracked operation's only exit is
`return allObjects` — the cancellation branch merely `break`s out of the
loop, and every per-item throw is caught inside the batch — so the wrapped
promise always resolves with the aggregated blocks, and `track` passes that
resolution through unchanged. -/
def scanWorkspaceOutcome (parse : α → Except AppError (List Block))
    (offset : Nat → Int × Int) (token : Nat → Bool) (files : List α) :
    Except AppError (List Block) :=
  (track ⟨[], 1⟩ "Workspace Scan" 0
    (Except.ok (scanWorkspace parse offset token files).1)).1

/-- **C8 (counterexample).** A scan stopped by cancellation surfaces to the
caller as an ordinary successful resolution: the pre-cancelled 12-item scan
resolves with `Except.ok []` — the very same outcome as a genuinely
successful scan of an empty workspace — so the caller cannot tell "stopped
early by request" apart from ordinary success by the scan's outcome. -/
theorem cancelled_scan_outcome_is_ordinary_success :
    scanWorkspaceOutcome parsePoisoned offsetZero tokenAlways files12
        = Except.ok []
    ∧ scanWorkspaceOutcome parsePoisoned offsetZero tokenNever ([] : List Nat)
        = Except.ok []
    ∧ scanWorkspaceOutcome parsePoisoned offsetZero tokenAlways files12
        = scanWorkspaceOutcome parsePoisoned offsetZero tokenNever ([] : List Nat) := by
  have h1 : (scanWorkspace parsePoisoned offsetZero tokenAlways files12).1 = [] := by
    simp only [scanWorkspace]
    rw [scanGo_of_cancel _ _ _ _ _ _ _ rfl]
  have h2 : (scanWorkspace parsePoisoned offsetZero tokenNever ([] : List Nat)).1 = [] := by
    simp only [scanWorkspace]
    rw [scanGo_of_ge _ _ _ _ _ _ _ (by simp)]
  refine ⟨?_, ?_, ?_⟩ <;>
    simp [scanWorkspaceOutcome, track, trackRegister, trackSettle, h1, h2]

/-- **C8 (amended).** At the parser level cancellation is a distinguishable
condition: with a token already cancelled at entry, `FileParser.parse`
rejects with the `VisualizerError` code `"CANCELLATION_REQUESTED"` — not a
success, and distinguishable by its code from a generic `"PARSING_FAILED"`
failure. The scan itself, however, converts cancellation into an ordinary
successful resolution carrying the partial result: it never rejects, so at
the scan boundary cancellation is not distinguishable from success. -/
theorem parser_cancellation_is_distinguishable
    (matchLine : String → List Block → List Block) (token : Nat → Bool)
    (l : String) (ls : List String) (htok : token 0 = true)
    (parse : α → Except AppError (List Block)) (offset : Nat → Int × Int)
    (stoken : Nat → Bool) (files : List α) :
    parseLines matchLine token (l :: ls) 0 []
        = Except.error ⟨"CANCELLATION_REQUESTED", "Parsing cancelled", true⟩
    ∧ (∀ blocks, parseLines matchLine token (l :: ls) 0 [] ≠ Except.ok blocks)
    ∧ ("CANCELLATION_REQUESTED" : String) ≠ "PARSING_FAILED"
    ∧ scanWorkspaceOutcome parse offset stoken files
        = Except.ok (scanWorkspace parse offset stoken files).1 := by
  have hmain : parseLines matchLine token (l :: ls) 0 []
      = Except.error ⟨"CANCELLATION_REQUESTED", "Parsing cancelled", true⟩ := by
    simp [parseLines, htok]
  refine ⟨hmain, ?_, by decide, rfl⟩
  intro blocks hblocks
  rw [hmain] at hblocks
  exact absurd hblocks (by simp)

/-- Witness for the amended C8: a one-line document under a pre-cancelled
token, and the pre-cancelled 12-item scan. -/
theorem parser_cancellation_is_distinguishable_witness :
    parseLines (fun _ acc => acc) tokenAlways ["line"] 0 []
        = Except.error ⟨"CANCELLATION_REQUESTED", "Parsing cancelled", true⟩
    ∧ (∀ blocks, parseLines (fun _ acc => acc) tokenAlways ["line"] 0 []
          ≠ Except.ok blocks)
    ∧ ("CANCELLATION_REQUESTED" : String) ≠ "PARSING_FAILED"
    ∧ scanWorkspaceOutcome parsePoisoned offsetZero tokenAlways files12
        = Except.ok (scanWorkspace parsePoisoned offsetZero tokenAlways files12).1 :=
  parser_cancellation_is_distinguishable (fun _ acc => acc) tokenAlways "line" []
    rfl parsePoisoned offsetZero tokenAlways files12

/-! ### Independence from completion order (`Promise.all`) -/

/-- A batch dispatch with the completion order made explicit: the batch's
per-item computations settle in the order given by `order` (a permutation of
the batch positions), each recording its value against its own input
position; `Promise.all`'s resolved array is then read back in input order.
`d` is filler for out-of-range reads and never used under the permutation
hypothesis. -/
def settleInOrder (results : List β) (order : List Nat) (d : β) : List β :=
  let log := order.map (fun j => (j, results.getD j d))
  (List.range results.length).map
    (fun idx => ((log.find? (fun p => p.1 = idx)).map (fun p => p.2)).getD d)

theorem settleInOrder_find (results : List β) (d : β) (order : List Nat) (idx : Nat)
    (h : idx ∈ order) :
    (order.map (fun j => (j, results.getD j d))).find? (fun p => p.1 = idx)
      = some (idx, results.getD idx d) := by
  induction order with
  | nil => cases h
  | cons j rest ih =>
    by_cases hj : j = idx
    · subst hj
      rw [List.map_cons, List.find?_cons_of_pos _ (by simp)]
    · have hmem : idx ∈ rest := by
        rcases List.mem_cons.1 h with h1 | h2
        · exact absurd h1.symm hj
        · exact h2
      rw [List.map_cons, List.find?_cons_of_neg _ (by simp [hj])]
      exact ih hmem

/-- `Promise.all` semantics: whatever order the items of a batch settle in,
the resolved array lists the per-item results in input order. -/
theorem settleInOrder_perm (results : List β) (d : β) (order : List Nat)
    (h : order.Perm (List.range results.length)) :
    settleInOrder results order d = results := by
  have hmem : ∀ idx, idx < results.length → idx ∈ order := fun idx hidx =>
    h.symm.subset (List.mem_range.2 hidx)
  refine List.ext_getElem ?_ ?_
  · simp only [settleInOrder, List.length_map, List.length_range]
  · intro n h1 h2
    simp only [settleInOrder, List.getElem_map, List.getElem_range]
    rw [settleInOrder_find results d order n (hmem n h2)]
    exact List.getD_eq_getElem results d h2

/-- The scan loop with each batch's completion order made explicit:
`orders b` is the settlement order of the `b`-th batch's `Promise.all`.
Everything else is exactly `scanGo`. -/
def scanGoScheduled (parse : α → Except AppError (List Block)) (offset : Nat → Int × Int)
    (token : Nat → Bool) (orders : Nat → List Nat) (files : List α) (total i b : Nat) :
    List Block × List ProgressReport :=
  if _h : i < total then
    if token b then ([], [])
    else
      let batch := (files.drop i).take batchSize
      let batchResults :=
        settleInOrder (mapWithIndexFrom (processFile parse offset) i batch) (orders b) []
      let current := min (i + batchSize) total
      let increment : ℚ := (batch.length : ℚ) / (total : ℚ) * 100
      let rest := scanGoScheduled parse offset token orders files total (i + batchSize) (b + 1)
      (batchResults.flatten ++ rest.1,
        ⟨s!"Parsing {current}/{total} files...", increment, current, total⟩ :: rest.2)
  else ([], [])
termination_by total - i
decreasing_by simp only [batchSize]; omega

/-- `scanWorkspace` with explicit per-batch completion orders. -/
def scanWorkspaceScheduled (parse : α → Except AppError (List Block))
    (offset : Nat → Int × Int) (token : Nat → Bool) (orders : Nat → List Nat)
    (files : List α) : List Block × List ProgressReport :=
  let total := files.length
  let r := scanGoScheduled parse offset token orders files total 0 0
  (r.1, ⟨s!"Found {total} files.", 0, 0, total⟩ :: r.2)

theorem scanGoScheduled_of_ge (parse : α → Except AppError (List Block)) (offset token orders files)
    (total i b : Nat) (h : ¬ i < total) :
    scanGoScheduled parse offset token orders files total i b = ([], []) := by
  rw [scanGoScheduled]
  simp [h]

theorem scanGoScheduled_of_cancel (parse : α → Except AppError (List Block)) (offset token orders files)
    (total i b : Nat) (h : token b = true) :
    scanGoScheduled parse offset token orders files total i b = ([], []) := by
  rw [scanGoScheduled]
  split
  · simp [h]
  · rfl

theorem scanGoScheduled_of_run (parse : α → Except AppError (List Block)) (offset token orders files)
    (total i b : Nat) (hi : i < total) (h : token b = false) :
    scanGoScheduled parse offset token orders files total i b
      = ((settleInOrder (mapWithIndexFrom (processFile parse offset) i
              ((files.drop i).take batchSize)) (orders b) []).flatten
            ++ (scanGoScheduled parse offset token orders files total (i + batchSize) (b + 1)).1,
          ⟨s!"Parsing {min (i + batchSize) total}/{total} files...",
              ((((files.drop i).take batchSize).length : Nat) : ℚ) / (total : ℚ) * 100,
              min (i + batchSize) total, total⟩
            :: (scanGoScheduled parse offset token orders files total (i + batchSize) (b + 1)).2) := by
  conv_lhs => rw [scanGoScheduled]
  simp [hi, h]

/-- The scheduled loop computes exactly what the canonical loop computes,
whatever the (valid) completion orders are. -/
theorem scanGoScheduled_eq_scanGo (parse : α → Except AppError (List Block))
    (offset : Nat → Int × Int) (token : Nat → Bool) (orders : Nat → List Nat)
    (files : List α)
    (h : ∀ b, (orders b).Perm
        (List.range ((files.drop (batchSize * b)).take batchSize).length)) :
    ∀ n i b, files.length - i ≤ n → i = batchSize * b →
      scanGoScheduled parse offset token orders files files.length i b
        = scanGo parse offset token files files.length i b := by
  intro n
  induction n with
  | zero =>
    intro i b hn hib
    have hge : ¬ i < files.length := by omega
    rw [scanGoScheduled_of_ge _ _ _ _ _ _ _ _ hge, scanGo_of_ge _ _ _ _ _ _ _ hge]
  | succ n ih =>
    intro i b hn hib
    by_cases hi : i < files.length
    · cases htok : token b with
      | true =>
        rw [scanGoScheduled_of_cancel _ _ _ _ _ _ _ _ htok,
          scanGo_of_cancel _ _ _ _ _ _ _ htok]
      | false =>
        rw [scanGoScheduled_of_run _ _ _ _ _ _ _ _ hi htok,
          scanGo_of_run _ _ _ _ _ _ _ hi htok]
        have hset : settleInOrder
            (mapWithIndexFrom (processFile parse offset) i ((files.drop i).take batchSize))
            (orders b) []
            = mapWithIndexFrom (processFile parse offset) i ((files.drop i).take batchSize) := by
          apply settleInOrder_perm
          rw [mapWithIndexFrom_length]
          rw [hib]
          exact h b
        rw [hset, ih (i + batchSize) (b + 1)
          (by simp only [batchSize] at hn ⊢; omega)
          (by rw [hib]; ring)]
    · rw [scanGoScheduled_of_ge _ _ _ _ _ _ _ _ hi, scanGo_of_ge _ _ _ _ _ _ _ hi]

/-- **C10.** The aggregated result sequence is deterministic and independent
of the completion order of the concurrent parses inside each batch: for any
valid completion orders the scheduled scan returns exactly what the
canonical (input-order) scan returns, and under no cancellation that result
is the per-item contributions flattened in enumeration order — blocks appear
grouped by work item, batches in enumeration order and, inside each batch,
items in their enumeration order. -/
theorem result_order_independent_of_completion_order
    (parse : α → Except AppError (List Block)) (offset : Nat → Int × Int)
    (token : Nat → Bool) (orders : Nat → List Nat) (files : List α)
    (h : ∀ b, (orders b).Perm
        (List.range ((files.drop (batchSize * b)).take batchSize).length)) :
    scanWorkspaceScheduled parse offset token orders files
        = scanWorkspace parse offset token files
    ∧ ((∀ j, token j = false) →
        (scanWorkspaceScheduled parse offset token orders files).1
          = (mapWithIndexFrom (processFile parse offset) 0 files).flatten) := by
  have hmain := scanGoScheduled_eq_scanGo parse offset token orders files h
    files.length 0 0 (by omega) (by simp)
  constructor
  · simp only [scanWorkspaceScheduled, scanWorkspace, hmain]
  · intro hnc
    have h2 := congrArg Prod.fst (scanWorkspace_no_cancel parse offset token files hnc)
    simp only [scanWorkspaceScheduled, hmain]
    simp only [scanWorkspace] at h2
    exact h2

/-- Completion orders that settle every batch of the 12-item scan in reverse
input order. -/
def ordersRev12 : Nat → List Nat := fun b =>
  (List.range ((files12.drop (batchSize * b)).take batchSize).length).reverse

/-- Witness for C10: the 12-item scan with one poisoned item, every batch
settling in reverse order. -/
theorem result_order_independent_witness :
    scanWorkspaceScheduled parsePoisoned offsetZero tokenNever ordersRev12 files12
        = scanWorkspace parsePoisoned offsetZero tokenNever files12
    ∧ (scanWorkspaceScheduled parsePoisoned offsetZero tokenNever ordersRev12 files12).1
        = (mapWithIndexFrom (processFile parsePoisoned offsetZero) 0 files12).flatten :=
  have h := result_order_independent_of_completion_order parsePoisoned offsetZero
    tokenNever ordersRev12 files12 (fun _ => List.reverse_perm _)
  ⟨h.1, h.2 (fun _ => rfl)⟩

end Spec
